import Mathlib

set_option maxRecDepth 1500

/-!
Verification of the MoE speed/parameter calculators: a shallow embedding of
the computational core of src/paramcalc.js and src/script.js.

JavaScript numbers are modelled as exact rationals (the source only adds,
multiplies and divides user-entered quantities; rounding of IEEE doubles is
idealised away).  `parseInt` is modelled on ℤ with `none` standing for NaN.
The speed calculator's `Infinity` is modelled as `none : Option ℚ`; past its
validation gate the source divides only under `> 0` guards, so no NaN and no
negative infinity can arise there.  Strings are processed as `List Char`
through `String.data`; the few regular expressions of the source are compiled
to explicit recursive scanners, documented at each definition.
-/

namespace MoESpeed

/-- Code points of JavaScript whitespace: the `\s` regexp class, which is the
same set `trim` and `parseInt` strip (WhiteSpace together with the line
terminators). -/
def wsCodes : List Nat :=
  [9, 10, 11, 12, 13, 32, 160, 5760,
   8192, 8193, 8194, 8195, 8196, 8197, 8198, 8199, 8200, 8201, 8202,
   8232, 8233, 8239, 8287, 12288, 65279]

def isJsWs (c : Char) : Bool := decide (c.toNat ∈ wsCodes)

def isDigitChar (c : Char) : Bool := decide (48 ≤ c.toNat ∧ c.toNat ≤ 57)

/-- Split a character list at every occurrence of `sep`; the pieces do not
contain `sep`, and n separators yield n+1 pieces, as `String.prototype.split`
with a single-character separator. -/
def splitOnChar (sep : Char) : List Char → List (List Char)
  | [] => [[]]
  | c :: cs =>
    if c = sep then [] :: splitOnChar sep cs
    else (c :: (splitOnChar sep cs).headI) :: (splitOnChar sep cs).tail

/-- Remove the longest suffix whose characters all satisfy `p`. -/
def dropEndWhile (p : Char → Bool) : List Char → List Char
  | [] => []
  | c :: cs =>
    if dropEndWhile p cs = [] ∧ p c = true then [] else c :: dropEndWhile p cs

/-- Apply `f` to the first element only. -/
def mapHead (f : List Char → List Char) : List (List Char) → List (List Char)
  | [] => []
  | x :: xs => f x :: xs

/-- Apply `f` to the last element only. -/
def mapLast (f : List Char → List Char) : List (List Char) → List (List Char)
  | [] => []
  | [x] => [f x]
  | x :: y :: ys => x :: mapLast f (y :: ys)

/-- Apply `f` to every element but the last. -/
def mapExceptLast (f : List Char → List Char) : List (List Char) → List (List Char)
  | [] => []
  | [x] => [x]
  | x :: y :: ys => f x :: mapExceptLast f (y :: ys)

/-- Concatenate, putting `sep` between consecutive pieces. -/
def joinSep (sep : Char) : List (List Char) → List Char
  | [] => []
  | [l] => l
  | l :: l2 :: ls => l ++ sep :: joinSep sep (l2 :: ls)

/-- Drop a single trailing CR (the `\r?` of the line-splitting regexp). -/
def dropOneCR (l : List Char) : List Char :=
  if l.getLast? = some '\r' then l.dropLast else l

/-- `String(text).split(/\r?\n/)`: every LF ends a line and absorbs at most
one CR immediately before it; a CR not followed by LF stays in its line. -/
def splitLines (cs : List Char) : List (List Char) :=
  mapExceptLast dropOneCR (splitOnChar '\n' cs)

/-- `String.prototype.trim()`. -/
def jsTrim (cs : List Char) : List Char :=
  dropEndWhile isJsWs (cs.dropWhile isJsWs)

/-- `normalizeNumStr` (src/paramcalc.js): first strip the character class
`[   \s_]` (160, 8239, 8201, whitespace, 95), then the class
`[,']` (44 and 39, the apostrophe). -/
def normalizeNumStr (cs : List Char) : List Char :=
  (cs.filter (fun c =>
      !(decide (c.toNat = 160) || decide (c.toNat = 8239) || decide (c.toNat = 8201)
        || isJsWs c || decide (c.toNat = 95)))).filter
    (fun c => !(decide (c.toNat = 44) || decide (c.toNat = 39)))

/-- Value of a run of decimal digits, most significant first. -/
def natOfDigits (ds : List Char) : Nat :=
  ds.foldl (fun a c => 10 * a + (c.toNat - 48)) 0

/-- The longest leading run of decimal digits, valued; `none` when there is
no leading digit. -/
def digitsVal (cs : List Char) : Option Nat :=
  if cs.takeWhile isDigitChar = [] then none
  else some (natOfDigits (cs.takeWhile isDigitChar))

/-- `parseInt(s, 10)`: skip leading whitespace, read an optional sign, then
the longest run of decimal digits; `none` is NaN.  (Digit runs beyond
Number.MAX_VALUE are idealised as exact integers.) -/
def jsParseInt (cs : List Char) : Option Int :=
  match cs.dropWhile isJsWs with
  | [] => none
  | c :: rest =>
    if c = '+' then (digitsVal rest).map (fun n => (n : Int))
    else if c = '-' then (digitsVal rest).map (fun n => -(n : Int))
    else (digitsVal (c :: rest)).map (fun n => (n : Int))

/-- Drop leading whitespace of every piece but the first: it was absorbed by
the greedy `\s*` after the comma that ended the previous piece. -/
def dropLeadTail : List (List Char) → List (List Char)
  | [] => []
  | s :: rest => s :: rest.map (List.dropWhile isJsWs)

/-- The pieces of `content.split(/\s*,\s*/)`: each comma absorbs the
whitespace run immediately before it (so every piece but the last loses its
trailing whitespace) and, greedily, immediately after it (so every piece but
the first loses its leading whitespace); the two ends of the string are not
touched. -/
def splitCommaWs (cs : List Char) : List (List Char) :=
  mapExceptLast (dropEndWhile isJsWs) (dropLeadTail (splitOnChar ',' cs))

/-- One dimension token of `parseShapeGroup`: normalize; an empty normal form
is NaN, otherwise `parseInt`; a non-finite value contributes 0. -/
def tokenValue (d : List Char) : Int :=
  if normalizeNumStr d = [] then 0 else (jsParseInt (normalizeNumStr d)).getD 0

/-- `group.replace(/^[^\[]*\[/, '')`: drop everything up to and including the
first opening bracket, when there is one. -/
def stripToOpen (cs : List Char) : List Char :=
  if '[' ∈ cs then (cs.dropWhile (fun c => decide (c ≠ '['))).tail else cs

/-- `.replace(/\].*$/, '')`: cut from the first closing bracket whose suffix
holds no newline (`.` does not match newlines and `$` only the very end, so
the leftmost match is at the first `]` after the last newline). -/
def stripFromClose : List Char → List Char
  | [] => []
  | c :: rest =>
    if c = ']' ∧ '\n' ∉ rest then [] else c :: stripFromClose rest

/-- The dimension list of `parseShapeGroup` applied to the text between the
brackets: split on commas, drop empty tokens (`filter(Boolean)`), value each
token. -/
def contentDims (content : List Char) : List Int :=
  ((splitCommaWs content).filter (fun t => decide (t ≠ []))).map tokenValue

/-- The sum-of-products core of `parseShapeGroup` on the text between the
brackets: no dimensions give 0, otherwise their product
(`dims.reduce((a, b) => a * b, 1)`). -/
def contentValue (content : List Char) : Int :=
  if contentDims content = [] then 0
  else (contentDims content).foldl (· * ·) 1

/-- `parseShapeGroup` (src/paramcalc.js). -/
def parseShapeGroup (group : List Char) : Int :=
  contentValue (stripFromClose (stripToOpen group))

/-- All matches of `line.match(/\[[^\]]*\]/g)`: each match runs from an
opening bracket to the next closing bracket, and scanning resumes after it.
Equivalently, split the line on `]`: every piece before the last that still
holds a `[` yields exactly the match running from its first `[` through the
`]` that ended the piece. -/
def scanGroups (line : List Char) : List (List Char) :=
  ((splitOnChar ']' line).dropLast).filterMap (fun p =>
    if '[' ∈ p then some ((p.dropWhile (fun c => decide (c ≠ '['))) ++ [']']) else none)

/-- One loop iteration of `sumShapes`: trim the raw line, skip it when empty;
with matches, add every group's value; with none (`match` gave null), wrap
the whole line in brackets and parse that. -/
def lineValue (rawLine : List Char) : Int :=
  if jsTrim rawLine = [] then 0
  else if scanGroups (jsTrim rawLine) = [] then
    parseShapeGroup ('[' :: jsTrim rawLine ++ [']'])
  else ((scanGroups (jsTrim rawLine)).map parseShapeGroup).foldl (· + ·) 0

/-- `sumShapes` (src/paramcalc.js): 0 for an empty text, else the sum of the
line values over `split(/\r?\n/)`. -/
def sumShapes (text : String) : Int :=
  if text = "" then 0
  else ((splitLines text.data).map lineValue).foldl (· + ·) 0

/-- `parseInt(input.field || '0', 10) || 0`: the empty string falls back to
the literal `'0'`, a NaN parse falls back to 0.  The value is an integer; it
is used as a JS number, hence the cast into ℚ. -/
def intField (s : String) : ℚ :=
  (((jsParseInt (if s = "" then "0" else s).data).getD 0 : ℤ) : ℚ)

/-- `sumShapes` used as a JS number. -/
def sumShapesQ (s : String) : ℚ := ((sumShapes s : ℤ) : ℚ)

/-- The plain record `computeResults` reads (the fields `getFormData`
gathers, except `total_layers`, which `computeResults` never reads).  Text
fields stay strings; checkbox fields are booleans. -/
structure ComputeInput where
  dense_layers : String
  moe_layers : String
  experts_per_layer : String
  active_experts : String
  experts_include_dim : Bool
  has_shared_expert : Bool
  shared_expert_scope : String
  embedding_shapes : String
  pre_first_norms : String
  dense_norms : String
  dense_attn : String
  dense_ffn : String
  moe_attn : String
  moe_transitional : String
  moe_shared_ffn : String
  moe_experts : String
  shared_expert_tensors : String
deriving DecidableEq

/-- The record `computeResults` returns: echoed inputs and the derived
numeric fields, in source order. -/
structure ComputeResult where
  denseLayers : ℚ
  moeLayers : ℚ
  expertsPer : ℚ
  activeExperts : ℚ
  expertsIncludeDim : Bool
  hasShared : Bool
  sharedScope : String
  embedCount : ℚ
  preFirstCount : ℚ
  dNorms : ℚ
  dAttn : ℚ
  dFfn : ℚ
  dPerLayer : ℚ
  mAttn : ℚ
  mNormsTrans : ℚ
  mSharedFfn : ℚ
  mExpertsInput : ℚ
  sharedExpertParams : ℚ
  sharedPerLayer : ℚ
  mAlwaysPerLayer : ℚ
  denseTotal : ℚ
  expertsPerLayerTotal : ℚ
  moeExpertTotal : ℚ
  sharedExpertTotal : ℚ
  moeTotal : ℚ
  totalParams : ℚ
  denseActive : ℚ
  activeExpertsClamped : ℚ
  expertsActivePerLayer : ℚ
  moeActive : ℚ
  totalActive : ℚ
  denseActivePct : ℚ
  moeActivePct : ℚ
  moeInactivePerToken : ℚ
  totalMlp : ℚ
  totalAttn : ℚ
  moeAlwaysTotal : ℚ
  totalAlwaysActive : ℚ
  alwaysActivePct : ℚ
  moeExpertsOnly : ℚ
  moeExpertsPct : ℚ
  totalLayersComputed : ℚ
deriving DecidableEq

/-- `computeResults` (src/paramcalc.js), line for line; every guarded JS
division (`x > 0 ? a / x : 0`) becomes the same guarded exact division. -/
def computeResults (input : ComputeInput) : ComputeResult :=
  let denseLayers := intField input.dense_layers
  let moeLayers := intField input.moe_layers
  let expertsPer := intField input.experts_per_layer
  let activeExperts := intField input.active_experts
  let expertsIncludeDim := input.experts_include_dim
  let hasShared := input.has_shared_expert
  let sharedScope :=
    if input.shared_expert_scope = "" then "per_layer" else input.shared_expert_scope
  let embedCount := sumShapesQ input.embedding_shapes
  let preFirstCount := sumShapesQ input.pre_first_norms
  let dNorms := sumShapesQ input.dense_norms
  let dAttn := sumShapesQ input.dense_attn
  let dFfn := sumShapesQ input.dense_ffn
  let dPerLayer := dNorms + dAttn + dFfn
  let mAttn := sumShapesQ input.moe_attn
  let mNormsTrans := sumShapesQ input.moe_transitional
  let mSharedFfn := sumShapesQ input.moe_shared_ffn
  let mExpertsInput := sumShapesQ input.moe_experts
  let sharedExpertParams := if hasShared then sumShapesQ input.shared_expert_tensors else 0
  let sharedPerLayer :=
    if hasShared then
      (if sharedScope = "per_layer" then sharedExpertParams
       else (if moeLayers > 0 then sharedExpertParams / moeLayers else 0))
    else 0
  let mAlwaysPerLayer := mNormsTrans + mAttn + mSharedFfn + sharedPerLayer
  let denseTotal := denseLayers * dPerLayer
  let expertsPerLayerTotal :=
    if expertsIncludeDim then mExpertsInput else mExpertsInput * expertsPer
  let moeExpertTotal := moeLayers * expertsPerLayerTotal
  let sharedExpertTotal :=
    if hasShared then
      (if sharedScope = "per_layer" then moeLayers * sharedExpertParams
       else sharedExpertParams)
    else 0
  let moeTotal := moeLayers * mAlwaysPerLayer + moeExpertTotal
  let totalParams := embedCount + preFirstCount + denseTotal + moeTotal
  let denseActive := embedCount + preFirstCount + denseTotal
  let activeExpertsClamped := max 0 (min activeExperts expertsPer)
  let expertsActivePerLayer :=
    if expertsIncludeDim then
      (if expertsPer > 0 then mExpertsInput * (activeExpertsClamped / expertsPer) else 0)
    else mExpertsInput * activeExpertsClamped
  let moeActive := moeLayers * (mAlwaysPerLayer + expertsActivePerLayer)
  let totalActive := denseActive + moeActive
  let denseActivePct := if totalActive > 0 then 100 * denseActive / totalActive else 0
  let moeActivePct := if totalActive > 0 then 100 * moeActive / totalActive else 0
  let moeInactivePerToken :=
    moeLayers * max 0 (expertsPerLayerTotal - expertsActivePerLayer)
  let totalMlp :=
    denseLayers * dFfn + moeLayers * (mSharedFfn + expertsPerLayerTotal) + sharedExpertTotal
  let totalAttn := denseLayers * dAttn + moeLayers * mAttn
  let moeAlwaysTotal := moeLayers * mAlwaysPerLayer
  let totalAlwaysActive := denseActive + moeAlwaysTotal
  let alwaysActivePct := if totalActive > 0 then 100 * totalAlwaysActive / totalActive else 0
  let moeExpertsOnly := max 0 (moeActive - moeAlwaysTotal)
  let moeExpertsPct := if totalActive > 0 then 100 * moeExpertsOnly / totalActive else 0
  { denseLayers := denseLayers
    moeLayers := moeLayers
    expertsPer := expertsPer
    activeExperts := activeExperts
    expertsIncludeDim := expertsIncludeDim
    hasShared := hasShared
    sharedScope := sharedScope
    embedCount := embedCount
    preFirstCount := preFirstCount
    dNorms := dNorms
    dAttn := dAttn
    dFfn := dFfn
    dPerLayer := dPerLayer
    mAttn := mAttn
    mNormsTrans := mNormsTrans
    mSharedFfn := mSharedFfn
    mExpertsInput := mExpertsInput
    sharedExpertParams := sharedExpertParams
    sharedPerLayer := sharedPerLayer
    mAlwaysPerLayer := mAlwaysPerLayer
    denseTotal := denseTotal
    expertsPerLayerTotal := expertsPerLayerTotal
    moeExpertTotal := moeExpertTotal
    sharedExpertTotal := sharedExpertTotal
    moeTotal := moeTotal
    totalParams := totalParams
    denseActive := denseActive
    activeExpertsClamped := activeExpertsClamped
    expertsActivePerLayer := expertsActivePerLayer
    moeActive := moeActive
    totalActive := totalActive
    denseActivePct := denseActivePct
    moeActivePct := moeActivePct
    moeInactivePerToken := moeInactivePerToken
    totalMlp := totalMlp
    totalAttn := totalAttn
    moeAlwaysTotal := moeAlwaysTotal
    totalAlwaysActive := totalAlwaysActive
    alwaysActivePct := alwaysActivePct
    moeExpertsOnly := moeExpertsOnly
    moeExpertsPct := moeExpertsPct
    totalLayersComputed := denseLayers + moeLayers }

/-- The numbers `calculate` (src/script.js) reads from the form.  Each
`parseFloat` result is `none` for NaN (a missing or unparseable field) and
`some q` otherwise.  `quantBits` comes from a `parseInt` on the quantization
select, whose options are always numeric. -/
structure SpeedInput where
  gpu1Vram : Option ℚ
  gpu1Bw : Option ℚ
  gpu2Vram : Option ℚ
  gpu2Bw : Option ℚ
  systemBw : Option ℚ
  totalParams : Option ℚ
  denseParams : Option ℚ
  activeMoeParams : Option ℚ
  kvCache : Option ℚ
  quantBits : ℚ
deriving DecidableEq

/-- The derived values of one `calculate` run, in source order.  Times are
`Option ℚ` with `none` standing for `Infinity`. -/
structure SpeedResult where
  totalMoeParams : ℚ
  bytesPerParam : ℚ
  denseSizeGB : ℚ
  denseKvGB : ℚ
  fitsOnGpu1 : Bool
  denseLoadMs : Option ℚ
  moeTotalGB : ℚ
  moeShare : ℚ
  activeMoeSizeGB : ℚ
  gpu2MoeMs : Option ℚ
  systemShare : ℚ
  systemMoeMs : Option ℚ
  totalMsPerToken : Option ℚ
  tokensPerSec : ℚ
deriving DecidableEq

deriving instance DecidableEq for Except

/-- Addition on times: a finite value plus `Infinity` is `Infinity` (only
nonnegative infinities arise, so no NaN). -/
def addInf (a b : Option ℚ) : Option ℚ :=
  match a, b with
  | some x, some y => some (x + y)
  | _, _ => none

/-- The single validation message of the speed calculator. -/
def validationMsg : String :=
  "Please fill in all fields with valid (non‑negative) numbers before calculating."

/-- `v => isNaN(v) || v < 0` on one gathered field. -/
def invalidNum (v : Option ℚ) : Bool :=
  v.isNone || decide (v.getD 0 < 0)

/-!
The consts of the body of `calculate` (src/script.js, lines 180-208) are
modelled as one definition per binding, each carrying the source formula
verbatim; `vField` is the post-validation numeric value of a gathered field
(`parseFloat` result, which validation has established to be a number for
the eight required fields; `kvCache` already fell back to 0 on NaN through
`|| 0`, modelled as `getD 0` as well, since NaN is `none`).
-/

/-- Post-validation numeric value of a gathered field. -/
def vField (v : Option ℚ) : ℚ := v.getD 0

/-- `Math.max(totalParams - denseParams, 0)`. -/
def totalMoeParamsV (inp : SpeedInput) : ℚ :=
  max (vField inp.totalParams - vField inp.denseParams) 0

/-- `quantBits / 8.0`. -/
def bytesPerParamV (inp : SpeedInput) : ℚ := inp.quantBits / 8

/-- `denseParams * bytesPerParam / 1e9`. -/
def denseSizeGBV (inp : SpeedInput) : ℚ :=
  vField inp.denseParams * bytesPerParamV inp / 1000000000

/-- `denseSizeGB + kvCache`. -/
def denseKvGBV (inp : SpeedInput) : ℚ := denseSizeGBV inp + vField inp.kvCache

/-- `denseKvGB <= gpu1Vram`. -/
def fitsOnGpu1V (inp : SpeedInput) : Bool :=
  decide (denseKvGBV inp ≤ vField inp.gpu1Vram)

/-- `gpu1Bw > 0 ? (denseKvGB / gpu1Bw) * 1000 : Infinity`. -/
def denseLoadMsV (inp : SpeedInput) : Option ℚ :=
  if vField inp.gpu1Bw > 0 then some (denseKvGBV inp / vField inp.gpu1Bw * 1000) else none

/-- `totalMoeParams * bytesPerParam / 1e9`. -/
def moeTotalGBV (inp : SpeedInput) : ℚ :=
  totalMoeParamsV inp * bytesPerParamV inp / 1000000000

/-- `moeShare`: 0 unless `moeTotalGB > 0 && gpu2Vram > 0`, then
`Math.min(1, gpu2Vram / moeTotalGB)`. -/
def moeShareV (inp : SpeedInput) : ℚ :=
  if moeTotalGBV inp > 0 ∧ vField inp.gpu2Vram > 0 then
    min 1 (vField inp.gpu2Vram / moeTotalGBV inp)
  else 0

/-- `activeMoeParams * bytesPerParam / 1e9`. -/
def activeMoeSizeGBV (inp : SpeedInput) : ℚ :=
  vField inp.activeMoeParams * bytesPerParamV inp / 1000000000

/-- `gpu2Bw > 0 ? (moeShare * activeMoeSizeGB / gpu2Bw) * 1000 : Infinity`. -/
def gpu2MoeMsV (inp : SpeedInput) : Option ℚ :=
  if vField inp.gpu2Bw > 0 then
    some (moeShareV inp * activeMoeSizeGBV inp / vField inp.gpu2Bw * 1000)
  else none

/-- `1 - moeShare`. -/
def systemShareV (inp : SpeedInput) : ℚ := 1 - moeShareV inp

/-- `systemBw > 0 ? (systemShare * activeMoeSizeGB / systemBw) * 1000 : Infinity`. -/
def systemMoeMsV (inp : SpeedInput) : Option ℚ :=
  if vField inp.systemBw > 0 then
    some (systemShareV inp * activeMoeSizeGBV inp / vField inp.systemBw * 1000)
  else none

/-- `denseLoadMs + gpu2MoeMs + systemMoeMs`. -/
def totalMsPerTokenV (inp : SpeedInput) : Option ℚ :=
  addInf (addInf (denseLoadMsV inp) (gpu2MoeMsV inp)) (systemMoeMsV inp)

/-- `totalMsPerToken > 0 ? 1000 / totalMsPerToken : 0`; `Infinity > 0` holds
and `1000 / Infinity` is 0, so the `none` case gives 0. -/
def tokensPerSecV (inp : SpeedInput) : ℚ :=
  match totalMsPerTokenV inp with
  | none => 0
  | some t => if t > 0 then 1000 / t else 0

/-- The derived values of one validated run, collected. -/
def speedRecord (inp : SpeedInput) : SpeedResult :=
  { totalMoeParams := totalMoeParamsV inp
    bytesPerParam := bytesPerParamV inp
    denseSizeGB := denseSizeGBV inp
    denseKvGB := denseKvGBV inp
    fitsOnGpu1 := fitsOnGpu1V inp
    denseLoadMs := denseLoadMsV inp
    moeTotalGB := moeTotalGBV inp
    moeShare := moeShareV inp
    activeMoeSizeGB := activeMoeSizeGBV inp
    gpu2MoeMs := gpu2MoeMsV inp
    systemShare := systemShareV inp
    systemMoeMs := systemMoeMsV inp
    totalMsPerToken := totalMsPerTokenV inp
    tokensPerSec := tokensPerSecV inp }

/-- `calculate` (src/script.js): validate the eight required fields, then
derive every displayed quantity.  The rendered HTML is abstracted into the
record of the values it displays; `.error` is the single validation message
shown instead of results. -/
def calculate (inp : SpeedInput) : Except String SpeedResult :=
  if [inp.gpu1Vram, inp.gpu1Bw, inp.gpu2Vram, inp.gpu2Bw, inp.systemBw,
      inp.totalParams, inp.denseParams, inp.activeMoeParams].any invalidNum then
    .error validationMsg
  else
    .ok (speedRecord inp)

/-!  The dimension list of a token list, and congruences for it. -/

/-- `filter(Boolean).map(tokenValue)` over an already-split token list. -/
def tokensDims (ts : List (List Char)) : List Int :=
  (ts.filter (fun t => decide (t ≠ []))).map tokenValue

/-- `reduce` over a dimension list (0 when there are no dimensions). -/
def valueOfDims (dims : List Int) : Int :=
  if dims = [] then 0 else dims.foldl (· * ·) 1

/-!  Well-formed shape text: the reference rendering the specification
describes — lines of bracketed groups of comma-separated decimal tokens —
and the facts needed to evaluate `sumShapes` on it. -/

/-- A well-formed dimension token: a nonempty run of decimal digits. -/
def isDigitStr (t : List Char) : Prop := t ≠ [] ∧ ∀ c ∈ t, isDigitChar c = true

instance (t : List Char) : Decidable (isDigitStr t) :=
  inferInstanceAs (Decidable (_ ∧ _))

/-- The text of one bracketed group with the given dimension tokens. -/
def renderGroup (toks : List (List Char)) : List Char :=
  '[' :: joinSep ',' toks ++ [']']

/-- The text of one line: its groups, concatenated. -/
def renderLine (gs : List (List (List Char))) : List Char :=
  (gs.map renderGroup).flatten

/-- The text of a whole shape list: its lines joined by LF. -/
def renderText (lns : List (List (List (List Char)))) : List Char :=
  joinSep '\n' (lns.map renderLine)

/-- Reference value of one well-formed group: the product of its dimensions. -/
def groupNatVal (g : List (List Char)) : Nat := (g.map natOfDigits).prod

/-- Reference value of one well-formed line: the sum of its group products. -/
def lineNatVal (line : List (List (List Char))) : Nat := (line.map groupNatVal).sum

/-- Reference value of a well-formed shape text: summed over all lines. -/
def textNatVal (lns : List (List (List (List Char)))) : Nat :=
  (lns.map lineNatVal).sum

/-- The returned record with the echoed raw `activeExperts` input masked out:
every other field of `computeResults`. -/
def eraseActiveEcho (r : ComputeResult) : ComputeResult :=
  { r with activeExperts := 0 }

/-- A concrete record for the clamp counterexample: 2 experts per layer,
5 active requested, all shape lists empty. -/
def clampIn : ComputeInput :=
  { dense_layers := "0", moe_layers := "0", experts_per_layer := "2",
    active_experts := "5", experts_include_dim := false, has_shared_expert := false,
    shared_expert_scope := "", embedding_shapes := "", pre_first_norms := "",
    dense_norms := "", dense_attn := "", dense_ffn := "", moe_attn := "",
    moe_transitional := "", moe_shared_ffn := "", moe_experts := "",
    shared_expert_tensors := "" }

/-- A concrete record with the shared expert enabled, scope 'total', and a
zero MoE layer count. -/
def sharedTotalIn : ComputeInput :=
  { clampIn with
    has_shared_expert := true
    shared_expert_scope := "total"
    shared_expert_tensors := "[7]" }

/-- A record with GPU 1 VRAM left blank (NaN) and every other field valid. -/
def missingIn : SpeedInput :=
  { gpu1Vram := none, gpu1Bw := some 936, gpu2Vram := some 24, gpu2Bw := some 936,
    systemBw := some 64, totalParams := some 1000, denseParams := some 500,
    activeMoeParams := some 250, kvCache := some 2, quantBits := 8 }

/-- A record whose GPU 2 bandwidth is 0 while its MoE share coefficient is
also 0 (total and dense parameter counts coincide, so there is no MoE to
place): the claimed exclusion would make the total finite. -/
def zeroBwIn : SpeedInput :=
  { gpu1Vram := some 1, gpu1Bw := some 1, gpu2Vram := some 1, gpu2Bw := some 0,
    systemBw := some 1, totalParams := some 5, denseParams := some 5,
    activeMoeParams := some 0, kvCache := some 0, quantBits := 8 }

/-- A record with all three bandwidths zero and otherwise valid fields. -/
def allZeroBwIn : SpeedInput :=
  { gpu1Vram := some 1, gpu1Bw := some 0, gpu2Vram := some 1, gpu2Bw := some 0,
    systemBw := some 0, totalParams := some 1, denseParams := some 0,
    activeMoeParams := some 0, kvCache := some 0, quantBits := 8 }

/-- A record with zero parameter counts and KV cache, positive bandwidths. -/
def zeroLoadIn : SpeedInput :=
  { gpu1Vram := some 1, gpu1Bw := some 1, gpu2Vram := some 1, gpu2Bw := some 1,
    systemBw := some 1, totalParams := some 0, denseParams := some 0,
    activeMoeParams := some 0, kvCache := some 0, quantBits := 8 }

/-- The two-line, two-group shape list [[2,3]] / [[4]] as token lists. -/
def exampleLines : List (List (List (List Char))) :=
  [[[['2'], ['3']]], [[['4']]]]

/-!  Basic facts about the splitting helpers. -/

theorem splitOnChar_ne_nil (sep : Char) (cs : List Char) : splitOnChar sep cs ≠ [] := by
  cases cs with
  | nil => simp [splitOnChar]
  | cons c cs => by_cases h : c = sep <;> simp [splitOnChar, h]

theorem join_split (sep : Char) (cs : List Char) :
    joinSep sep (splitOnChar sep cs) = cs := by
  induction cs with
  | nil => rfl
  | cons c cs ih =>
    by_cases h : c = sep
    · cases hr : splitOnChar sep cs with
      | nil => exact absurd hr (splitOnChar_ne_nil sep cs)
      | cons x xs =>
        rw [hr] at ih
        rw [splitOnChar.eq_def]
        simp only [if_pos h, hr, joinSep]
        rw [h]
        simpa [joinSep] using ih
    · cases hr : splitOnChar sep cs with
      | nil => exact absurd hr (splitOnChar_ne_nil sep cs)
      | cons x xs =>
        rw [hr] at ih
        cases xs with
        | nil =>
          rw [splitOnChar.eq_def]
          simp only [if_neg h, hr, List.headI, List.tail_cons, joinSep]
          simpa [joinSep] using ih
        | cons y ys =>
          rw [splitOnChar.eq_def]
          simp only [if_neg h, hr, List.headI, List.tail_cons, joinSep]
          simp only [joinSep] at ih
          simp [ih]

theorem splitOnChar_singleton (sep : Char) (cs x : List Char)
    (h : splitOnChar sep cs = [x]) : x = cs := by
  have h2 := join_split sep cs
  rw [h] at h2
  simpa [joinSep] using h2

theorem splitOnChar_of_not_mem (sep : Char) (cs : List Char) (h : sep ∉ cs) :
    splitOnChar sep cs = [cs] := by
  induction cs with
  | nil => rfl
  | cons c cs ih =>
    simp only [List.mem_cons, not_or] at h
    have hc : ¬(c = sep) := fun hh => h.1 hh.symm
    rw [splitOnChar.eq_def]
    simp only [if_neg hc, ih h.2, List.headI, List.tail]

theorem splitOnChar_append (sep : Char) (xs ys : List Char) (h : sep ∉ xs) :
    splitOnChar sep (xs ++ sep :: ys) = xs :: splitOnChar sep ys := by
  induction xs with
  | nil =>
    simp only [List.nil_append]
    rw [splitOnChar.eq_def]
    simp
  | cons x xs ih =>
    simp only [List.mem_cons, not_or] at h
    have hx : ¬(x = sep) := fun hh => h.1 hh.symm
    simp only [List.cons_append]
    rw [splitOnChar.eq_def]
    simp only [if_neg hx, ih h.2, List.headI, List.tail]

theorem mem_of_mem_splitOnChar (sep : Char) (cs : List Char) {p : List Char}
    (hp : p ∈ splitOnChar sep cs) {c : Char} (hc : c ∈ p) : c ∈ cs := by
  induction cs generalizing p with
  | nil =>
    simp only [splitOnChar, List.mem_singleton] at hp
    subst hp
    simp at hc
  | cons d cs ih =>
    simp only [splitOnChar] at hp
    by_cases h : d = sep
    · rw [if_pos h] at hp
      rcases List.mem_cons.mp hp with rfl | hp
      · simp at hc
      · exact List.mem_cons_of_mem _ (ih hp hc)
    · rw [if_neg h] at hp
      have hp := List.mem_cons.mp hp
      cases hr : splitOnChar sep cs with
      | nil => exact absurd hr (splitOnChar_ne_nil sep cs)
      | cons x xs =>
        rw [hr] at hp
        simp only [List.headI, List.tail_cons] at hp
        rcases hp with rfl | hp
        · rcases List.mem_cons.mp hc with rfl | hcx
          · exact List.mem_cons_self _ _
          · exact List.mem_cons_of_mem _ (ih (by rw [hr]; exact List.mem_cons_self _ _) hcx)
        · exact List.mem_cons_of_mem _ (ih (by rw [hr]; exact List.mem_cons_of_mem _ hp) hc)

/-!  Facts about `dropEndWhile` and the whitespace-invariance of token
values. -/

theorem dropEndWhile_eq_nil_iff (p : Char → Bool) (l : List Char) :
    dropEndWhile p l = [] ↔ ∀ c ∈ l, p c = true := by
  induction l with
  | nil => simp [dropEndWhile]
  | cons c l ih =>
    simp only [dropEndWhile]
    by_cases h : dropEndWhile p l = [] ∧ p c = true
    · rw [if_pos h]
      simp only [List.mem_cons, true_iff]
      intro x hx
      rcases hx with rfl | hx
      · exact h.2
      · exact (ih.mp h.1) x hx
    · rw [if_neg h]
      simp only [List.cons_ne_nil, false_iff]
      intro hall
      exact h ⟨ih.mpr (fun x hx => hall x (List.mem_cons_of_mem _ hx)),
        hall c (List.mem_cons_self _ _)⟩

theorem dropEndWhile_append_of_neg (p : Char → Bool) (xs : List Char) (c : Char)
    (h : p c = false) : dropEndWhile p (xs ++ [c]) = xs ++ [c] := by
  induction xs with
  | nil => simp [dropEndWhile, h]
  | cons x xs ih =>
    simp [dropEndWhile, ih]

theorem mem_of_mem_dropEndWhile (p : Char → Bool) (l : List Char) {c : Char}
    (h : c ∈ dropEndWhile p l) : c ∈ l := by
  induction l with
  | nil => simp [dropEndWhile] at h
  | cons x l ih =>
    simp only [dropEndWhile] at h
    by_cases hc : dropEndWhile p l = [] ∧ p x = true
    · rw [if_pos hc] at h
      simp at h
    · rw [if_neg hc] at h
      rcases List.mem_cons.mp h with rfl | h
      · exact List.mem_cons_self _ _
      · exact List.mem_cons_of_mem _ (ih h)

theorem filter_dropWhile (p q : Char → Bool) (h : ∀ c, p c = true → q c = false)
    (l : List Char) : (l.dropWhile p).filter q = l.filter q := by
  induction l with
  | nil => rfl
  | cons c l ih =>
    rw [List.dropWhile_cons]
    by_cases hc : p c = true
    · rw [if_pos hc, ih, List.filter_cons, if_neg (by simp [h c hc])]
    · rw [if_neg hc]

theorem filter_dropEndWhile (p q : Char → Bool) (h : ∀ c, p c = true → q c = false)
    (l : List Char) : (dropEndWhile p l).filter q = l.filter q := by
  induction l with
  | nil => rfl
  | cons c l ih =>
    simp only [dropEndWhile]
    by_cases hc : dropEndWhile p l = [] ∧ p c = true
    · rw [if_pos hc]
      have hl : l.filter q = [] := by
        rw [List.filter_eq_nil_iff]
        intro a ha
        simp [h a ((dropEndWhile_eq_nil_iff p l).mp hc.1 a ha)]
      simp [List.filter_cons, h c hc.2, hl]
    · rw [if_neg hc, List.filter_cons, List.filter_cons]
      by_cases hq : q c = true
      · rw [if_pos hq, if_pos hq, ih]
      · rw [if_neg hq, if_neg hq, ih]

/-- Whitespace is stripped by the first filter of `normalizeNumStr`. -/
theorem normalize_keep_of_ws {c : Char} (h : isJsWs c = true) :
    (!(decide (c.toNat = 160) || decide (c.toNat = 8239) || decide (c.toNat = 8201)
        || isJsWs c || decide (c.toNat = 95))) = false := by
  simp [h]

theorem normalizeNumStr_dropWhile_ws (l : List Char) :
    normalizeNumStr (l.dropWhile isJsWs) = normalizeNumStr l := by
  unfold normalizeNumStr
  rw [filter_dropWhile isJsWs _ (fun c hc => normalize_keep_of_ws hc) l]

theorem normalizeNumStr_dropEndWhile_ws (l : List Char) :
    normalizeNumStr (dropEndWhile isJsWs l) = normalizeNumStr l := by
  unfold normalizeNumStr
  rw [filter_dropEndWhile isJsWs _ (fun c hc => normalize_keep_of_ws hc) l]

theorem tokenValue_congr {a b : List Char}
    (h : normalizeNumStr a = normalizeNumStr b) : tokenValue a = tokenValue b := by
  unfold tokenValue
  rw [h]

theorem normalizeNumStr_of_all_ws {l : List Char} (h : ∀ c ∈ l, isJsWs c = true) :
    normalizeNumStr l = [] := by
  unfold normalizeNumStr
  rw [show List.filter _ l = ([] : List Char) from
    List.filter_eq_nil_iff.mpr (fun a ha => by simp [h a ha])]
  rfl

theorem tokenValue_of_all_ws {l : List Char} (h : ∀ c ∈ l, isJsWs c = true) :
    tokenValue l = 0 := by
  unfold tokenValue
  rw [normalizeNumStr_of_all_ws h, if_pos rfl]

/-!  Commutation of the splitter with end-trimming, and trim emptiness. -/

theorem splitOnChar_dropWhile (sep : Char) (p : Char → Bool)
    (hp : ∀ c, p c = true → ¬(c = sep)) (cs : List Char) :
    splitOnChar sep (cs.dropWhile p) = mapHead (List.dropWhile p) (splitOnChar sep cs) := by
  induction cs with
  | nil => simp [splitOnChar, mapHead]
  | cons c cs ih =>
    rw [List.dropWhile_cons]
    by_cases hc : p c = true
    · rw [if_pos hc, ih]
      have hcs : ¬(c = sep) := hp c hc
      cases hr : splitOnChar sep cs with
      | nil => exact absurd hr (splitOnChar_ne_nil sep cs)
      | cons x xs =>
        rw [splitOnChar.eq_def]
        simp only [if_neg hcs, hr, List.headI, List.tail_cons, mapHead]
        rw [List.dropWhile_cons, if_pos hc]
    · rw [if_neg hc]
      by_cases hcs : c = sep
      · rw [splitOnChar.eq_def]
        simp only [if_pos hcs, mapHead, List.dropWhile_nil]
      · cases hr : splitOnChar sep cs with
        | nil => exact absurd hr (splitOnChar_ne_nil sep cs)
        | cons x xs =>
          rw [splitOnChar.eq_def]
          simp only [if_neg hcs, hr, List.headI, List.tail_cons, mapHead]
          rw [List.dropWhile_cons, if_neg hc]

theorem splitOnChar_dropEndWhile (sep : Char) (p : Char → Bool)
    (hp : ∀ c, p c = true → ¬(c = sep)) (cs : List Char) :
    splitOnChar sep (dropEndWhile p cs) = mapLast (dropEndWhile p) (splitOnChar sep cs) := by
  induction cs with
  | nil => simp [splitOnChar, dropEndWhile, mapLast]
  | cons c cs ih =>
    simp only [dropEndWhile]
    by_cases hcond : dropEndWhile p cs = [] ∧ p c = true
    · rw [if_pos hcond]
      have hall : ∀ x ∈ cs, p x = true := (dropEndWhile_eq_nil_iff p cs).mp hcond.1
      have hnotmem : sep ∉ cs := fun hmem => hp sep (hall sep hmem) rfl
      have hcs : ¬(c = sep) := hp c hcond.2
      conv_rhs => rw [splitOnChar.eq_def]
      simp only [if_neg hcs, splitOnChar_of_not_mem sep cs hnotmem, List.headI,
        List.tail_cons, mapLast]
      simp [splitOnChar, dropEndWhile, hcond.1, hcond.2]
    · rw [if_neg hcond]
      cases hr : splitOnChar sep cs with
      | nil => exact absurd hr (splitOnChar_ne_nil sep cs)
      | cons x xs =>
        rw [hr] at ih
        by_cases hcs : c = sep
        · conv_lhs => rw [splitOnChar.eq_def]
          conv_rhs => rw [splitOnChar.eq_def]
          simp only [if_pos hcs, hr, ih, mapLast]
        · conv_lhs => rw [splitOnChar.eq_def]
          conv_rhs => rw [splitOnChar.eq_def]
          simp only [if_neg hcs, hr, List.headI, List.tail_cons]
          cases xs with
          | nil =>
            have hx : x = cs := splitOnChar_singleton sep cs x hr
            subst hx
            rw [ih]
            simp only [mapLast, List.headI, List.tail_cons]
            conv_rhs => simp only [dropEndWhile]
            rw [if_neg hcond]
          | cons y ys =>
            rw [ih]
            simp only [mapLast, List.headI, List.tail_cons]

/-!  Emptiness of trims, and `split_joinSep`. -/

theorem all_dropWhile_iff (p : Char → Bool) (l : List Char) :
    (∀ c ∈ l.dropWhile p, p c = true) ↔ (∀ c ∈ l, p c = true) := by
  constructor
  · intro h c hc
    have hsplit := List.takeWhile_append_dropWhile p l
    rw [← hsplit] at hc
    rcases List.mem_append.mp hc with hc | hc
    · exact List.mem_takeWhile_imp hc
    · exact h c hc
  · intro h c hc
    exact h c ((List.dropWhile_sublist p).subset hc)

theorem all_dropEndWhile_iff (p : Char → Bool) (l : List Char) :
    (∀ c ∈ dropEndWhile p l, p c = true) ↔ (∀ c ∈ l, p c = true) := by
  constructor
  · intro h
    induction l with
    | nil => simp
    | cons c l ih =>
      simp only [dropEndWhile] at h
      by_cases hcond : dropEndWhile p l = [] ∧ p c = true
      · intro x hx
        rcases List.mem_cons.mp hx with rfl | hx
        · exact hcond.2
        · exact (dropEndWhile_eq_nil_iff p l).mp hcond.1 x hx
      · rw [if_neg hcond] at h
        intro x hx
        rcases List.mem_cons.mp hx with rfl | hx
        · exact h x (List.mem_cons_self _ _)
        · exact ih (fun y hy => h y (List.mem_cons_of_mem _ hy)) x hx
  · intro h c hc
    exact h c (mem_of_mem_dropEndWhile p l hc)

theorem jsTrim_eq_nil_iff (l : List Char) :
    jsTrim l = [] ↔ ∀ c ∈ l, isJsWs c = true := by
  unfold jsTrim
  rw [dropEndWhile_eq_nil_iff]
  exact all_dropWhile_iff isJsWs l

theorem mem_of_mem_jsTrim {l : List Char} {c : Char} (h : c ∈ jsTrim l) : c ∈ l :=
  (List.dropWhile_sublist isJsWs).subset (mem_of_mem_dropEndWhile _ _ h)

theorem split_joinSep (sep : Char) (ls : List (List Char)) (hne : ls ≠ [])
    (h : ∀ l ∈ ls, sep ∉ l) :
    splitOnChar sep (joinSep sep ls) = ls := by
  induction ls with
  | nil => exact absurd rfl hne
  | cons l ls ih =>
    cases ls with
    | nil =>
      simp only [joinSep]
      exact splitOnChar_of_not_mem sep l (h l (List.mem_cons_self _ _))
    | cons l2 ls2 =>
      simp only [joinSep]
      rw [splitOnChar_append sep l _ (h l (List.mem_cons_self _ _))]
      rw [ih (List.cons_ne_nil _ _) (fun x hx => h x (List.mem_cons_of_mem _ hx))]

theorem contentDims_eq (content : List Char) :
    contentDims content = tokensDims (splitCommaWs content) := rfl

theorem contentValue_eq (content : List Char) :
    contentValue content = valueOfDims (contentDims content) := rfl

theorem tokensDims_cons (t : List Char) (ts : List (List Char)) :
    tokensDims (t :: ts) = (if t = [] then [] else [tokenValue t]) ++ tokensDims ts := by
  unfold tokensDims
  by_cases ht : t = []
  · rw [List.filter_cons, if_neg (by simp [ht]), if_pos ht, List.nil_append]
  · rw [List.filter_cons, if_pos (by simp [ht]), if_neg ht, List.map_cons, List.singleton_append]

theorem tokensDims_head_congr {a b : List Char} (ts : List (List Char))
    (hnil : a = [] ↔ b = []) (hval : tokenValue a = tokenValue b) :
    tokensDims (a :: ts) = tokensDims (b :: ts) := by
  rw [tokensDims_cons, tokensDims_cons]
  by_cases ha : a = []
  · rw [if_pos ha, if_pos (hnil.mp ha)]
  · rw [if_neg ha, if_neg (fun hb => ha (hnil.mpr hb)), hval]

theorem tokensDims_tail_congr (a : List Char) {ts us : List (List Char)}
    (h : tokensDims ts = tokensDims us) :
    tokensDims (a :: ts) = tokensDims (a :: us) := by
  rw [tokensDims_cons, tokensDims_cons, h]

/-!  `contentValue` is invariant under trimming the content: whitespace at
either end is either absorbed into an adjacent separator (and `tokenValue`
ignores it anyway) or forms an all-whitespace sole token, which contributes
the same value 0 whether it is filtered out (empty) or parsed as NaN. -/

theorem ws_ne_comma : ∀ c : Char, isJsWs c = true → ¬(c = ',') := by
  intro c hc hcc
  rw [hcc] at hc
  exact absurd hc (by decide)

theorem tokenValue_dropWhile_ws (x : List Char) :
    tokenValue (x.dropWhile isJsWs) = tokenValue x :=
  tokenValue_congr (normalizeNumStr_dropWhile_ws x)

theorem tokenValue_dropEndWhile_ws (x : List Char) :
    tokenValue (dropEndWhile isJsWs x) = tokenValue x :=
  tokenValue_congr (normalizeNumStr_dropEndWhile_ws x)

theorem mapExceptLast_cons_of_ne (f : List Char → List Char) (a : List Char)
    (ts : List (List Char)) (h : ts ≠ []) :
    mapExceptLast f (a :: ts) = f a :: mapExceptLast f ts := by
  cases ts with
  | nil => exact absurd rfl h
  | cons b bs => rfl

theorem mapLast_cons_of_ne (f : List Char → List Char) (a : List Char)
    (ts : List (List Char)) (h : ts ≠ []) :
    mapLast f (a :: ts) = a :: mapLast f ts := by
  cases ts with
  | nil => exact absurd rfl h
  | cons b bs => rfl

theorem mapLast_ne_nil (f : List Char → List Char) (ts : List (List Char))
    (h : ts ≠ []) : mapLast f ts ≠ [] := by
  cases ts with
  | nil => exact absurd rfl h
  | cons b bs => cases bs <;> simp [mapLast]

theorem tokensDims_trail_aux (zs : List (List Char)) :
    tokensDims (mapExceptLast (dropEndWhile isJsWs)
        ((mapLast (dropEndWhile isJsWs) zs).map (List.dropWhile isJsWs)))
      = tokensDims (mapExceptLast (dropEndWhile isJsWs)
          (zs.map (List.dropWhile isJsWs))) := by
  induction zs with
  | nil => rfl
  | cons z zs ih =>
    cases zs with
    | nil =>
      simp only [mapLast, List.map_cons, List.map_nil, mapExceptLast]
      refine tokensDims_head_congr [] ?_ ?_
      · rw [List.dropWhile_eq_nil_iff, all_dropEndWhile_iff, ← List.dropWhile_eq_nil_iff]
      · rw [tokenValue_dropWhile_ws, tokenValue_dropEndWhile_ws, tokenValue_dropWhile_ws]
    | cons z2 zs2 =>
      rw [mapLast_cons_of_ne _ _ _ (List.cons_ne_nil _ _)]
      simp only [List.map_cons]
      rw [mapExceptLast_cons_of_ne _ _ _
          (by simp [mapLast_ne_nil _ (z2 :: zs2) (List.cons_ne_nil _ _)]),
        mapExceptLast_cons_of_ne _ _ _ (by simp)]
      exact tokensDims_tail_congr _ (by simpa [List.map_cons] using ih)

theorem contentValue_dropWhile_ws (s : List Char) :
    contentValue (s.dropWhile isJsWs) = contentValue s := by
  rw [contentValue_eq, contentValue_eq, contentDims_eq, contentDims_eq]
  unfold splitCommaWs
  rw [splitOnChar_dropWhile ',' isJsWs ws_ne_comma s]
  cases hr : splitOnChar ',' s with
  | nil => exact absurd hr (splitOnChar_ne_nil _ s)
  | cons x xs =>
    simp only [mapHead]
    cases xs with
    | nil =>
      simp only [dropLeadTail, List.map_nil, mapExceptLast]
      by_cases hall : ∀ c ∈ x, isJsWs c = true
      · have h1 : List.dropWhile isJsWs x = [] := List.dropWhile_eq_nil_iff.mpr hall
        have hL : tokensDims [List.dropWhile isJsWs x] = [] := by rw [h1]; rfl
        have hR : valueOfDims (tokensDims [x]) = 0 := by
          by_cases hx : x = []
          · rw [hx]; rfl
          · rw [tokensDims_cons, if_neg hx, tokenValue_of_all_ws hall]; rfl
        rw [hL, hR]; rfl
      · have hx' : List.dropWhile isJsWs x ≠ [] :=
          fun h => hall (List.dropWhile_eq_nil_iff.mp h)
        have hxne : x ≠ [] := fun h => hall (by rw [h]; simp)
        rw [tokensDims_head_congr [] (iff_of_false hx' hxne) (tokenValue_dropWhile_ws x)]
    | cons y ys =>
      simp only [dropLeadTail, List.map_cons]
      rw [mapExceptLast_cons_of_ne _ _ _ (List.cons_ne_nil _ _),
        mapExceptLast_cons_of_ne _ _ _ (List.cons_ne_nil _ _)]
      refine congrArg valueOfDims (tokensDims_head_congr _ ?_ ?_)
      · rw [dropEndWhile_eq_nil_iff, all_dropWhile_iff, ← dropEndWhile_eq_nil_iff]
      · rw [tokenValue_dropEndWhile_ws, tokenValue_dropWhile_ws, tokenValue_dropEndWhile_ws]

theorem contentValue_dropEndWhile_ws (s : List Char) :
    contentValue (dropEndWhile isJsWs s) = contentValue s := by
  rw [contentValue_eq, contentValue_eq, contentDims_eq, contentDims_eq]
  unfold splitCommaWs
  rw [splitOnChar_dropEndWhile ',' isJsWs ws_ne_comma s]
  cases hr : splitOnChar ',' s with
  | nil => exact absurd hr (splitOnChar_ne_nil _ s)
  | cons x xs =>
    cases xs with
    | nil =>
      simp only [mapLast, dropLeadTail, List.map_nil, mapExceptLast]
      by_cases hall : ∀ c ∈ x, isJsWs c = true
      · have h1 : dropEndWhile isJsWs x = [] := (dropEndWhile_eq_nil_iff _ _).mpr hall
        have hL : tokensDims [dropEndWhile isJsWs x] = [] := by rw [h1]; rfl
        have hR : valueOfDims (tokensDims [x]) = 0 := by
          by_cases hx : x = []
          · rw [hx]; rfl
          · rw [tokensDims_cons, if_neg hx, tokenValue_of_all_ws hall]; rfl
        rw [hL, hR]; rfl
      · have hx' : dropEndWhile isJsWs x ≠ [] :=
          fun h => hall ((dropEndWhile_eq_nil_iff _ _).mp h)
        have hxne : x ≠ [] := fun h => hall (by rw [h]; simp)
        rw [tokensDims_head_congr [] (iff_of_false hx' hxne) (tokenValue_dropEndWhile_ws x)]
    | cons y ys =>
      rw [mapLast_cons_of_ne _ _ _ (List.cons_ne_nil _ _)]
      simp only [dropLeadTail, List.map_cons]
      rw [mapExceptLast_cons_of_ne _ _ _
          (by simp [mapLast_ne_nil _ (y :: ys) (List.cons_ne_nil _ _)]),
        mapExceptLast_cons_of_ne _ _ _ (by simp)]
      refine congrArg valueOfDims (tokensDims_tail_congr _ ?_)
      simpa [List.map_cons] using tokensDims_trail_aux (y :: ys)

theorem contentValue_jsTrim (s : List Char) :
    contentValue (jsTrim s) = contentValue s := by
  unfold jsTrim
  rw [contentValue_dropEndWhile_ws, contentValue_dropWhile_ws]

/-!  Bracket handling: `parseShapeGroup` and the group scanner on
well-delimited arguments. -/

theorem stripFromClose_append {xs : List Char} (h : ']' ∉ xs) :
    stripFromClose (xs ++ [']']) = xs := by
  induction xs with
  | nil => simp [stripFromClose]
  | cons c cs ih =>
    simp only [List.mem_cons, not_or] at h
    simp only [List.cons_append, stripFromClose]
    rw [if_neg (fun hand => h.1 hand.1.symm)]
    simp only [List.append_eq]
    rw [ih h.2]

theorem parseShapeGroup_wrap (s : List Char) (h : ']' ∉ s) :
    parseShapeGroup ('[' :: s ++ [']']) = contentValue s := by
  unfold parseShapeGroup stripToOpen
  have hmem : ('[' : Char) ∈ '[' :: s ++ [']'] := List.mem_cons_self _ _
  rw [if_pos hmem, List.cons_append]
  simp only [List.dropWhile_cons]
  rw [if_neg (by decide)]
  simp only [List.tail_cons]
  rw [stripFromClose_append h]

theorem scanGroups_of_not_open (line : List Char) (h : '[' ∉ line) :
    scanGroups line = [] := by
  unfold scanGroups
  rw [List.filterMap_eq_nil_iff]
  intro p hp
  rw [if_neg]
  intro hmem
  exact h (mem_of_mem_splitOnChar ']' line ((List.dropLast_sublist _).subset hp) hmem)

theorem scanGroups_wrap (s : List Char) (hs : ']' ∉ s) :
    scanGroups ('[' :: s ++ [']']) = ['[' :: s ++ [']']] := by
  unfold scanGroups
  have hsplit : splitOnChar ']' ('[' :: s ++ [']']) = ['[' :: s, []] := by
    have happ := splitOnChar_append ']' ('[' :: s) []
      (by simp only [List.mem_cons, not_or]; exact ⟨by decide, hs⟩)
    simpa [splitOnChar] using happ
  rw [hsplit]
  simp only [List.dropLast]
  rw [List.filterMap_cons]
  simp only [List.filterMap_nil]
  have hmem : ('[' : Char) ∈ '[' :: s := List.mem_cons_self _ _
  rw [if_pos hmem]
  rw [List.dropWhile_cons, if_neg (by decide)]

theorem splitLines_no_newline (cs : List Char) (h : ('\n' : Char) ∉ cs) :
    splitLines cs = [cs] := by
  unfold splitLines
  rw [splitOnChar_of_not_mem _ _ h]
  rfl

theorem lineValue_no_bracket (raw : List Char)
    (hbr : ('[' : Char) ∉ raw) (hcl : (']' : Char) ∉ raw) :
    lineValue raw = contentValue (jsTrim raw) := by
  unfold lineValue
  by_cases he : jsTrim raw = []
  · rw [if_pos he, he]
    rfl
  · rw [if_neg he]
    have h1 : ('[' : Char) ∉ jsTrim raw := fun hm => hbr (mem_of_mem_jsTrim hm)
    rw [if_pos (scanGroups_of_not_open _ h1)]
    exact parseShapeGroup_wrap (jsTrim raw) (fun hm => hcl (mem_of_mem_jsTrim hm))

theorem sumShapes_eq_body (text : String) :
    sumShapes text = ((splitLines text.data).map lineValue).foldl (· + ·) 0 := by
  unfold sumShapes
  by_cases h : text = ""
  · rw [if_pos h, h]
    decide
  · rw [if_neg h]

theorem foldl_add_int (l : List Int) (a : Int) : l.foldl (· + ·) a = a + l.sum := by
  induction l generalizing a with
  | nil => simp
  | cons x l ih =>
    rw [List.foldl_cons, ih, List.sum_cons]
    ring

theorem foldl_mul_int (l : List Int) (a : Int) : l.foldl (· * ·) a = a * l.prod := by
  induction l generalizing a with
  | nil => simp
  | cons x l ih =>
    rw [List.foldl_cons, ih, List.prod_cons]
    ring

theorem digit_not_ws {c : Char} (h : isDigitChar c = true) : isJsWs c = false := by
  have hn : 48 ≤ c.toNat ∧ c.toNat ≤ 57 := by simpa [isDigitChar] using h
  have hmem : ¬(c.toNat ∈ wsCodes) := by
    simp only [wsCodes, List.mem_cons, List.not_mem_nil, or_false]
    omega
  simpa [isJsWs] using hmem

theorem digit_ne {c c0 : Char} (h : isDigitChar c = true)
    (h0 : isDigitChar c0 = false) : ¬(c = c0) := by
  intro hc
  rw [hc] at h
  rw [h] at h0
  exact absurd h0 (by decide)

theorem mem_joinSep {sep : Char} {ls : List (List Char)} {c : Char}
    (h : c ∈ joinSep sep ls) : c = sep ∨ ∃ l ∈ ls, c ∈ l := by
  induction ls with
  | nil => simp [joinSep] at h
  | cons l ls ih =>
    cases ls with
    | nil =>
      simp only [joinSep] at h
      exact Or.inr ⟨l, List.mem_cons_self _ _, h⟩
    | cons l2 ls2 =>
      simp only [joinSep] at h
      rcases List.mem_append.mp h with h | h
      · exact Or.inr ⟨l, List.mem_cons_self _ _, h⟩
      · rcases List.mem_cons.mp h with rfl | h
        · exact Or.inl rfl
        · rcases ih h with h | ⟨x, hx, hcx⟩
          · exact Or.inl h
          · exact Or.inr ⟨x, List.mem_cons_of_mem _ hx, hcx⟩

theorem dropWhile_ws_eq_self {t : List Char} (h : ∀ c ∈ t, isJsWs c = false) :
    t.dropWhile isJsWs = t := by
  cases t with
  | nil => rfl
  | cons c cs =>
    rw [List.dropWhile_cons, if_neg (by simp [h c (List.mem_cons_self _ _)])]

theorem dropEndWhile_ws_eq_self {t : List Char} (h : ∀ c ∈ t, isJsWs c = false) :
    dropEndWhile isJsWs t = t := by
  induction t with
  | nil => rfl
  | cons c cs ih =>
    simp only [dropEndWhile]
    rw [ih (fun x hx => h x (List.mem_cons_of_mem _ hx))]
    rw [if_neg]
    rintro ⟨h1, h2⟩
    rw [h c (List.mem_cons_self _ _)] at h2
    exact Bool.false_ne_true h2

theorem mapExceptLast_eq_self (f : List Char → List Char)
    (ts : List (List Char)) (h : ∀ t ∈ ts, f t = t) : mapExceptLast f ts = ts := by
  induction ts with
  | nil => rfl
  | cons t ts ih =>
    cases ts with
    | nil => rfl
    | cons t2 ts2 =>
      simp only [mapExceptLast]
      rw [h t (List.mem_cons_self _ _), ih (fun x hx => h x (List.mem_cons_of_mem _ hx))]

theorem jsParseInt_cons_eq (c : Char) (cs : List Char)
    (h : (c :: cs).dropWhile isJsWs = c :: cs) :
    jsParseInt (c :: cs)
      = (if c = '+' then (digitsVal cs).map (fun n => (n : Int))
         else if c = '-' then (digitsVal cs).map (fun n => -(n : Int))
         else (digitsVal (c :: cs)).map (fun n => (n : Int))) := by
  unfold jsParseInt
  rw [h]

theorem tokenValue_digit (t : List Char) (h : isDigitStr t) :
    tokenValue t = (natOfDigits t : Int) := by
  obtain ⟨hne, hdig⟩ := h
  have hws : ∀ c ∈ t, isJsWs c = false := fun c hc => digit_not_ws (hdig c hc)
  have hkeep1 : ∀ a ∈ t, (!(decide (a.toNat = 160) || decide (a.toNat = 8239)
      || decide (a.toNat = 8201) || isJsWs a || decide (a.toNat = 95))) = true := by
    intro a ha
    have hn : 48 ≤ a.toNat ∧ a.toNat ≤ 57 := by simpa [isDigitChar] using hdig a ha
    have hws2 : isJsWs a = false := digit_not_ws (hdig a ha)
    simp only [hws2, Bool.or_false, Bool.false_or, Bool.not_eq_true',
      Bool.or_eq_false_iff, decide_eq_false_iff_not]
    omega
  have hkeep2 : ∀ a ∈ t, (!(decide (a.toNat = 44) || decide (a.toNat = 39))) = true := by
    intro a ha
    have hn : 48 ≤ a.toNat ∧ a.toNat ≤ 57 := by simpa [isDigitChar] using hdig a ha
    simp only [Bool.not_eq_true', Bool.or_eq_false_iff, decide_eq_false_iff_not]
    omega
  have hnorm : normalizeNumStr t = t := by
    unfold normalizeNumStr
    rw [List.filter_eq_self.mpr hkeep1]
    exact List.filter_eq_self.mpr hkeep2
  unfold tokenValue
  rw [hnorm, if_neg hne]
  cases t with
  | nil => exact absurd rfl hne
  | cons c cs =>
    have hd := hdig c (List.mem_cons_self _ _)
    rw [jsParseInt_cons_eq c cs (dropWhile_ws_eq_self hws)]
    rw [if_neg (digit_ne hd (by decide)), if_neg (digit_ne hd (by decide))]
    unfold digitsVal
    rw [List.takeWhile_eq_self_iff.mpr hdig]
    rw [if_neg (List.cons_ne_nil _ _)]
    simp

theorem contentValue_digit_tokens (toks : List (List Char)) (hne : toks ≠ [])
    (h : ∀ t ∈ toks, isDigitStr t) :
    contentValue (joinSep ',' toks) = ((toks.map natOfDigits).prod : Int) := by
  have hnomem : ∀ t ∈ toks, (',' : Char) ∉ t := by
    intro t ht hc
    exact digit_ne ((h t ht).2 _ hc) (by decide) rfl
  rw [contentValue_eq, contentDims_eq]
  unfold splitCommaWs
  rw [split_joinSep ',' toks hne hnomem]
  have hid1 : dropLeadTail toks = toks := by
    cases toks with
    | nil => rfl
    | cons t ts =>
      simp only [dropLeadTail]
      rw [List.map_congr_left (fun x hx =>
        dropWhile_ws_eq_self (fun c hc => digit_not_ws ((h x (List.mem_cons_of_mem _ hx)).2 c hc)))]
      simp
  rw [hid1]
  rw [mapExceptLast_eq_self _ _ (fun x hx =>
    dropEndWhile_ws_eq_self (fun c hc => digit_not_ws ((h x hx).2 c hc)))]
  unfold tokensDims
  rw [List.filter_eq_self.mpr (fun a ha => by simp [(h a ha).1])]
  rw [List.map_congr_left (fun x hx => tokenValue_digit x (h x hx))]
  have hdims : (toks.map (fun x => ((natOfDigits x : Int)))) ≠ [] := by
    simp [hne]
  unfold valueOfDims
  rw [if_neg hdims, foldl_mul_int, one_mul]
  rw [Nat.cast_list_prod, List.map_map]
  rfl

theorem mem_inner_digit_tokens {toks : List (List Char)}
    (h : ∀ t ∈ toks, isDigitStr t) {c : Char}
    (hc : c ∈ joinSep ',' toks) : c = ',' ∨ isDigitChar c = true := by
  rcases mem_joinSep hc with h1 | ⟨l, hl, hcl⟩
  · exact Or.inl h1
  · exact Or.inr ((h l hl).2 _ hcl)

theorem scanGroups_renderLine (gs : List (List (List Char)))
    (h : ∀ g ∈ gs, ∀ t ∈ g, isDigitStr t) :
    scanGroups (renderLine gs) = gs.map renderGroup := by
  induction gs with
  | nil => rfl
  | cons g gs ih =>
    have ih2 := ih (fun g2 hg t ht => h g2 (List.mem_cons_of_mem _ hg) t ht)
    have hinner : (']' : Char) ∉ joinSep ',' g := by
      intro hm
      rcases mem_inner_digit_tokens (h g (List.mem_cons_self _ _)) hm with h1 | h1
      · exact absurd h1 (by decide)
      · exact absurd h1 (by decide)
    have hshape : renderLine (g :: gs) = ('[' :: joinSep ',' g) ++ ']' :: renderLine gs := by
      unfold renderLine renderGroup
      simp [List.flatten_cons, List.append_assoc]
    rw [hshape]
    unfold scanGroups
    rw [splitOnChar_append ']' _ _ (by
      intro hm
      rcases List.mem_cons.mp hm with h1 | h1
      · exact absurd h1 (by decide)
      · exact hinner h1)]
    cases hS : splitOnChar ']' (renderLine gs) with
    | nil => exact absurd hS (splitOnChar_ne_nil _ _)
    | cons S0 Srest =>
      rw [List.dropLast_cons₂, List.filterMap_cons]
      have hmem : ('[' : Char) ∈ '[' :: joinSep ',' g := List.mem_cons_self _ _
      rw [if_pos hmem, List.dropWhile_cons, if_neg (by decide)]
      unfold scanGroups at ih2
      rw [hS] at ih2
      rw [ih2]
      rfl

theorem jsTrim_eq_self {l : List Char} (h : ∀ c ∈ l, isJsWs c = false) :
    jsTrim l = l := by
  unfold jsTrim
  rw [dropWhile_ws_eq_self h, dropEndWhile_ws_eq_self h]

theorem dropOneCR_eq_self {l : List Char} (h : ('\r' : Char) ∉ l) :
    dropOneCR l = l := by
  unfold dropOneCR
  rw [if_neg]
  intro hl
  rcases List.getLast?_eq_some_iff.mp hl with ⟨ys, hys⟩
  exact h (by rw [hys]; simp)

theorem renderLine_chars (gs : List (List (List Char)))
    (hdig : ∀ g ∈ gs, ∀ t ∈ g, isDigitStr t) :
    ∀ c ∈ renderLine gs, isJsWs c = false := by
  intro c hc
  unfold renderLine at hc
  rcases List.mem_flatten.mp hc with ⟨piece, hpiece, hcp⟩
  rcases List.mem_map.mp hpiece with ⟨g2, hg2, rfl⟩
  unfold renderGroup at hcp
  rcases List.mem_append.mp hcp with hcp | hcp
  · rcases List.mem_cons.mp hcp with rfl | hcp
    · decide
    · rcases mem_inner_digit_tokens (hdig g2 hg2) hcp with rfl | hd
      · decide
      · exact digit_not_ws hd
  · rw [List.mem_singleton.mp hcp]
    decide

theorem lineValue_renderLine (gs : List (List (List Char)))
    (h : ∀ g ∈ gs, g ≠ [] ∧ ∀ t ∈ g, isDigitStr t) :
    lineValue (renderLine gs) = (lineNatVal gs : Int) := by
  cases gs with
  | nil => decide
  | cons g gs2 =>
    have hdig : ∀ g2 ∈ g :: gs2, ∀ t ∈ g2, isDigitStr t := fun g2 hg => (h g2 hg).2
    have hchars := renderLine_chars (g :: gs2) hdig
    have htrim : jsTrim (renderLine (g :: gs2)) = renderLine (g :: gs2) :=
      jsTrim_eq_self hchars
    have hne2 : renderLine (g :: gs2) ≠ [] := by
      unfold renderLine renderGroup
      simp
    unfold lineValue
    rw [htrim, if_neg hne2]
    rw [scanGroups_renderLine _ hdig]
    rw [if_neg (by simp)]
    rw [List.map_map]
    have hmapped : List.map (parseShapeGroup ∘ renderGroup) (g :: gs2)
        = List.map (fun g2 => ((groupNatVal g2 : Int))) (g :: gs2) := by
      apply List.map_congr_left
      intro g2 hg2
      have hinner : (']' : Char) ∉ joinSep ',' g2 := by
        intro hm
        rcases mem_inner_digit_tokens (hdig g2 hg2) hm with h1 | h1
        · exact absurd h1 (by decide)
        · exact absurd h1 (by decide)
      show parseShapeGroup (renderGroup g2) = _
      unfold renderGroup
      rw [parseShapeGroup_wrap _ hinner]
      rw [contentValue_digit_tokens _ (h g2 hg2).1 (hdig g2 hg2)]
      rfl
    rw [hmapped, foldl_add_int, zero_add]
    unfold lineNatVal
    rw [Nat.cast_list_sum, List.map_map]
    rfl

/-!  Claims about the parameter calculator. -/

/-- C1: for every input record on which `computeResults` is invoked, the
returned `totalParams` equals the returned `denseActive` plus the returned
`moeTotal` (identity AJ: total = dense_active + moe_total). -/
theorem totalParams_eq_denseActive_add_moeTotal (input : ComputeInput) :
    (computeResults input).totalParams
      = (computeResults input).denseActive + (computeResults input).moeTotal := by
  simp only [computeResults]

/-- C3 (counterexample): with active_experts "5" and experts_per_layer "2",
the record returned for the original input and the one with active_experts
set to experts_per_layer are not equal: the raw `activeExperts` input is
echoed back unclamped (5 against 2), so `computeResults` does not behave
identically on the two records as the claim states. -/
theorem computeResults_clamp_cex :
    (computeResults { clampIn with active_experts := clampIn.experts_per_layer }).activeExperts = 2
    ∧ (computeResults clampIn).activeExperts = 5
    ∧ ¬(computeResults { clampIn with active_experts := clampIn.experts_per_layer }
        = computeResults clampIn) := by
  refine ⟨?_, ?_, ?_⟩
  · with_unfolding_all decide
  · with_unfolding_all decide
  · intro hEq
    have h5 := congrArg ComputeResult.activeExperts hEq
    revert h5
    with_unfolding_all decide

/-- C3 (amended): on an input whose parsed active_experts exceeds the parsed
experts_per_layer, `computeResults` agrees with the run on the same record
with active_experts set equal to experts_per_layer in every field except the
echoed raw `activeExperts` input: the active-expert count used by every
derived field is clamped to [0, experts_per_layer]. -/
theorem computeResults_clamp_amended (input : ComputeInput)
    (h : intField input.experts_per_layer < intField input.active_experts) :
    eraseActiveEcho (computeResults { input with active_experts := input.experts_per_layer })
      = eraseActiveEcho (computeResults input) := by
  have hmin : min (intField input.active_experts) (intField input.experts_per_layer)
      = intField input.experts_per_layer := min_eq_right (le_of_lt h)
  simp only [eraseActiveEcho, computeResults]
  rw [hmin, min_self]

/-- C3 (witness for the amended claim), at the concrete record of the
counterexample: 5 requested active experts against 2 per layer. -/
theorem computeResults_clamp_amended_witness :
    eraseActiveEcho (computeResults { clampIn with active_experts := clampIn.experts_per_layer })
      = eraseActiveEcho (computeResults clampIn) :=
  computeResults_clamp_amended clampIn (by with_unfolding_all decide)

/-- C5 (counterexample): "12ab" is not a well-formed integer, yet the token
contributes `parseInt`'s longest-digit-prefix value 12, not 0: replacing the
malformed token by 0 changes the result of `sumShapes` from 12 to 0. -/
theorem tokenValue_malformed_cex :
    sumShapes ("[12ab]") = 12 ∧ sumShapes ("[0]") = 0
    ∧ ¬(sumShapes ("[12ab]") = sumShapes ("[0]")) := by
  exact ⟨by decide, by decide, by decide⟩

/-- C5 (amended): a dimension token whose normalized form holds no parsable
leading integer (an optional sign followed by at least one digit) contributes
zero to its group's product; a malformed token that does start with an
integer contributes that prefix's value instead. -/
theorem tokenValue_no_int_amended (d : List Char)
    (h : jsParseInt (normalizeNumStr d) = none) : tokenValue d = 0 := by
  unfold tokenValue
  by_cases hn : normalizeNumStr d = []
  · rw [if_pos hn]
  · rw [if_neg hn, h]
    rfl

/-- C5 (witness): the all-letter token "abc" contributes zero. -/
theorem tokenValue_no_int_amended_witness : tokenValue (("abc").data) = 0 :=
  tokenValue_no_int_amended (("abc").data) (by decide)

/-- C6: `sumShapes` degrades silently to zero on empty or unparseable input
("" and "[abc]" both give 0, with no error possible in the total embedding),
and the integer fields of the parameter calculator default to zero when the
field is missing (empty) or malformed (`parseInt` gives NaN). -/
theorem sumShapes_silent_default :
    sumShapes ("") = 0 ∧ sumShapes ("[abc]") = 0 ∧ intField ("") = 0
    ∧ ∀ s : String, jsParseInt s.data = none → intField s = 0 := by
  refine ⟨by decide, by decide, by with_unfolding_all decide, ?_⟩
  intro s h
  unfold intField
  by_cases hs : s = ""
  · rw [if_pos hs]
    with_unfolding_all decide
  · rw [if_neg hs, h]
    with_unfolding_all decide

/-- C6 (witness): the malformed field "zz" defaults to zero. -/
theorem sumShapes_silent_default_witness : intField ("zz") = 0 :=
  sumShapes_silent_default.2.2.2 ("zz") (by decide)

/-- C8: with the shared expert enabled, scope 'total' and a zero MoE layer
count, the per-layer shared-expert contribution is the guarded value 0 — the
division by the layer count is skipped, and in this exact-arithmetic
embedding every derived field is a well-defined rational by construction. -/
theorem sharedPerLayer_zero_when_no_moe_layers (input : ComputeInput)
    (h1 : input.has_shared_expert = true)
    (h2 : input.shared_expert_scope = "total")
    (h3 : intField input.moe_layers = 0) :
    (computeResults input).sharedPerLayer = 0 := by
  simp [computeResults, h1, h2, h3]

/-- C8 (witness): a concrete record with scope 'total' and no MoE layers. -/
theorem sharedPerLayer_zero_when_no_moe_layers_witness :
    (computeResults sharedTotalIn).sharedPerLayer = 0 :=
  sharedPerLayer_zero_when_no_moe_layers sharedTotalIn rfl rfl (by with_unfolding_all decide)

/-!  Claims about the speed calculator. -/

theorem invalidNum_iff (v : Option ℚ) :
    invalidNum v = true ↔ v = none ∨ v.getD 0 < 0 := by
  unfold invalidNum
  cases v <;> simp

theorem valid_field {v : Option ℚ} (h : invalidNum v = false) :
    ∃ q, v = some q ∧ 0 ≤ q := by
  unfold invalidNum at h
  cases v with
  | none => simp at h
  | some q =>
    refine ⟨q, rfl, ?_⟩
    simp only [Option.isNone_some, Bool.false_or, decide_eq_false_iff_not,
      Option.getD_some] at h
    exact le_of_not_lt h

theorem addInf_none_iff (a b : Option ℚ) :
    addInf a b = none ↔ a = none ∨ b = none := by
  cases a <;> cases b <;> simp [addInf]

theorem calculate_ok_record {inp : SpeedInput} {r : SpeedResult}
    (h : calculate inp = .ok r) : r = speedRecord inp := by
  unfold calculate at h
  by_cases hc : ([inp.gpu1Vram, inp.gpu1Bw, inp.gpu2Vram, inp.gpu2Bw, inp.systemBw,
      inp.totalParams, inp.denseParams, inp.activeMoeParams].any invalidNum) = true
  · rw [if_pos hc] at h
    exact absurd h (by simp)
  · rw [if_neg hc] at h
    simpa using h.symm

theorem calculate_ok_valid {inp : SpeedInput} {r : SpeedResult}
    (h : calculate inp = .ok r) :
    invalidNum inp.gpu1Vram = false ∧ invalidNum inp.gpu1Bw = false
    ∧ invalidNum inp.gpu2Vram = false ∧ invalidNum inp.gpu2Bw = false
    ∧ invalidNum inp.systemBw = false ∧ invalidNum inp.totalParams = false
    ∧ invalidNum inp.denseParams = false ∧ invalidNum inp.activeMoeParams = false := by
  unfold calculate at h
  by_cases hc : ([inp.gpu1Vram, inp.gpu1Bw, inp.gpu2Vram, inp.gpu2Bw, inp.systemBw,
      inp.totalParams, inp.denseParams, inp.activeMoeParams].any invalidNum) = true
  · rw [if_pos hc] at h
    exact absurd h (by simp)
  · have hc2 : ([inp.gpu1Vram, inp.gpu1Bw, inp.gpu2Vram, inp.gpu2Bw, inp.systemBw,
        inp.totalParams, inp.denseParams, inp.activeMoeParams].any invalidNum) = false := by
      simpa using hc
    simpa [List.any_cons, List.any_nil, Bool.or_eq_false_iff, and_assoc] using hc2

/-- C7: if any of the eight required numeric fields of the speed calculator
is missing (NaN) or negative, `calculate` aborts before deriving any result
and returns the single validation message instead. -/
theorem calculate_validation_aborts (inp : SpeedInput)
    (h : (inp.gpu1Vram = none ∨ inp.gpu1Vram.getD 0 < 0)
       ∨ (inp.gpu1Bw = none ∨ inp.gpu1Bw.getD 0 < 0)
       ∨ (inp.gpu2Vram = none ∨ inp.gpu2Vram.getD 0 < 0)
       ∨ (inp.gpu2Bw = none ∨ inp.gpu2Bw.getD 0 < 0)
       ∨ (inp.systemBw = none ∨ inp.systemBw.getD 0 < 0)
       ∨ (inp.totalParams = none ∨ inp.totalParams.getD 0 < 0)
       ∨ (inp.denseParams = none ∨ inp.denseParams.getD 0 < 0)
       ∨ (inp.activeMoeParams = none ∨ inp.activeMoeParams.getD 0 < 0)) :
    calculate inp = .error validationMsg := by
  unfold calculate
  rw [if_pos]
  simp only [List.any_eq_true]
  rcases h with h|h|h|h|h|h|h|h
  · exact ⟨inp.gpu1Vram, by simp, (invalidNum_iff _).mpr h⟩
  · exact ⟨inp.gpu1Bw, by simp, (invalidNum_iff _).mpr h⟩
  · exact ⟨inp.gpu2Vram, by simp, (invalidNum_iff _).mpr h⟩
  · exact ⟨inp.gpu2Bw, by simp, (invalidNum_iff _).mpr h⟩
  · exact ⟨inp.systemBw, by simp, (invalidNum_iff _).mpr h⟩
  · exact ⟨inp.totalParams, by simp, (invalidNum_iff _).mpr h⟩
  · exact ⟨inp.denseParams, by simp, (invalidNum_iff _).mpr h⟩
  · exact ⟨inp.activeMoeParams, by simp, (invalidNum_iff _).mpr h⟩

/-- C7 (witness): a blank GPU 1 VRAM field aborts with the message. -/
theorem calculate_validation_aborts_witness :
    calculate missingIn = .error validationMsg :=
  calculate_validation_aborts missingIn (Or.inl (Or.inl rfl))

/-- C4 (counterexample): on `zeroBwIn` the MoE share multiplying the GPU 2
path is 0, yet the zero-bandwidth path still yields an infinite time, the
total time per token is infinite and the throughput 0 — the path is not
excluded from the total when its coefficient is zero. -/
theorem calculate_zero_bw_cex :
    calculate zeroBwIn = .ok (speedRecord zeroBwIn)
    ∧ (speedRecord zeroBwIn).moeShare = 0
    ∧ (speedRecord zeroBwIn).gpu2MoeMs = none
    ∧ (speedRecord zeroBwIn).totalMsPerToken = none
    ∧ (speedRecord zeroBwIn).tokensPerSec = 0 := by
  refine ⟨rfl, ?_, rfl, rfl, rfl⟩
  with_unfolding_all decide

/-- C4 (amended): past validation, a path's load time is infinite exactly
when its bandwidth is zero, regardless of the coefficient multiplying the
path; the total time per token is infinite exactly when some path time is
infinite, and an infinite total gives zero tokens/second.  No zero-bandwidth
path is ever excluded from the total. -/
theorem calculate_zero_bw_amended (inp : SpeedInput) (r : SpeedResult)
    (hok : calculate inp = .ok r) :
    ((r.denseLoadMs = none ↔ inp.gpu1Bw = some 0)
      ∧ (r.gpu2MoeMs = none ↔ inp.gpu2Bw = some 0)
      ∧ (r.systemMoeMs = none ↔ inp.systemBw = some 0))
    ∧ (r.totalMsPerToken = none
        ↔ (r.denseLoadMs = none ∨ r.gpu2MoeMs = none ∨ r.systemMoeMs = none))
    ∧ (¬(r.totalMsPerToken = none) ∨ r.tokensPerSec = 0) := by
  obtain ⟨-, h2, -, h4, h5, -, -, -⟩ := calculate_ok_valid hok
  have hr := calculate_ok_record hok
  subst hr
  obtain ⟨q1, hq1, hq1nn⟩ := valid_field h2
  obtain ⟨q2, hq2, hq2nn⟩ := valid_field h4
  obtain ⟨qs, hqs, hqsnn⟩ := valid_field h5
  simp only [speedRecord]
  refine ⟨⟨?_, ?_, ?_⟩, ?_, ?_⟩
  · unfold denseLoadMsV vField
    rw [hq1]
    simp only [Option.getD_some]
    by_cases hq : q1 > 0
    · rw [if_pos hq]
      constructor
      · intro h0
        exact absurd h0 (by simp)
      · intro h0
        rw [Option.some.injEq] at h0
        rw [h0] at hq
        exact absurd hq (by norm_num)
    · rw [if_neg hq]
      have hz : q1 = 0 := le_antisymm (not_lt.mp hq) hq1nn
      simp [hz]
  · unfold gpu2MoeMsV vField
    rw [hq2]
    simp only [Option.getD_some]
    by_cases hq : q2 > 0
    · rw [if_pos hq]
      constructor
      · intro h0
        exact absurd h0 (by simp)
      · intro h0
        rw [Option.some.injEq] at h0
        rw [h0] at hq
        exact absurd hq (by norm_num)
    · rw [if_neg hq]
      have hz : q2 = 0 := le_antisymm (not_lt.mp hq) hq2nn
      simp [hz]
  · unfold systemMoeMsV vField
    rw [hqs]
    simp only [Option.getD_some]
    by_cases hq : qs > 0
    · rw [if_pos hq]
      constructor
      · intro h0
        exact absurd h0 (by simp)
      · intro h0
        rw [Option.some.injEq] at h0
        rw [h0] at hq
        exact absurd hq (by norm_num)
    · rw [if_neg hq]
      have hz : qs = 0 := le_antisymm (not_lt.mp hq) hqsnn
      simp [hz]
  · unfold totalMsPerTokenV
    rw [addInf_none_iff, addInf_none_iff, or_assoc]
  · by_cases ht : totalMsPerTokenV inp = none
    · refine Or.inr ?_
      unfold tokensPerSecV
      rw [ht]
    · exact Or.inl ht

/-- C4 (witness for the amended claim), at a record with all bandwidths 0. -/
theorem calculate_zero_bw_amended_witness :
    (((speedRecord allZeroBwIn).denseLoadMs = none ↔ allZeroBwIn.gpu1Bw = some 0)
      ∧ ((speedRecord allZeroBwIn).gpu2MoeMs = none ↔ allZeroBwIn.gpu2Bw = some 0)
      ∧ ((speedRecord allZeroBwIn).systemMoeMs = none ↔ allZeroBwIn.systemBw = some 0))
    ∧ ((speedRecord allZeroBwIn).totalMsPerToken = none
        ↔ ((speedRecord allZeroBwIn).denseLoadMs = none
          ∨ (speedRecord allZeroBwIn).gpu2MoeMs = none
          ∨ (speedRecord allZeroBwIn).systemMoeMs = none))
    ∧ (¬((speedRecord allZeroBwIn).totalMsPerToken = none)
        ∨ (speedRecord allZeroBwIn).tokensPerSec = 0) :=
  calculate_zero_bw_amended allZeroBwIn (speedRecord allZeroBwIn) rfl

/-- C10: on a validated input whose three load-time terms are all zero, the
total time per token is 0 ms and the reported throughput is 0 tokens/second,
not infinite (`totalMsPerToken > 0` fails, so the guarded division to
tokens/second is skipped). -/
theorem calculate_zero_terms_zero_tps (inp : SpeedInput) (r : SpeedResult)
    (hok : calculate inp = .ok r)
    (h1 : r.denseLoadMs = some 0) (h2 : r.gpu2MoeMs = some 0)
    (h3 : r.systemMoeMs = some 0) :
    r.totalMsPerToken = some 0 ∧ r.tokensPerSec = 0 := by
  have hr := calculate_ok_record hok
  subst hr
  simp only [speedRecord] at h1 h2 h3 ⊢
  have htot : totalMsPerTokenV inp = some 0 := by
    unfold totalMsPerTokenV
    rw [h1, h2, h3]
    simp [addInf]
  refine ⟨htot, ?_⟩
  unfold tokensPerSecV
  rw [htot]
  norm_num

/-- C10 (witness): all parameter counts and the KV cache zero with every
bandwidth positive gives 0 ms per token and 0 tokens/second. -/
theorem calculate_zero_terms_zero_tps_witness :
    (speedRecord zeroLoadIn).totalMsPerToken = some 0
    ∧ (speedRecord zeroLoadIn).tokensPerSec = 0 :=
  calculate_zero_terms_zero_tps zeroLoadIn (speedRecord zeroLoadIn) rfl
    (by with_unfolding_all decide) (by with_unfolding_all decide)
    (by with_unfolding_all decide)

/-!  Claims about the shape parser as a whole. -/

/-- C2: on well-formed shape text — lines of bracketed groups of nonempty
comma-separated decimal dimension tokens — `sumShapes` multiplies the
dimensions inside each bracketed group and sums those products over all
groups and lines; in particular sumShapes "[2,3]\n[4]" = 2*3 + 4 = 10. -/
theorem sumShapes_sum_of_products :
    (∀ lns : List (List (List (List Char))),
        (∀ line ∈ lns, ∀ g ∈ line, g ≠ [] ∧ ∀ t ∈ g, isDigitStr t) →
        sumShapes (String.mk (renderText lns)) = (textNatVal lns : Int))
      ∧ sumShapes ("[2,3]\n[4]") = 10 := by
  refine ⟨?_, by decide⟩
  intro lns hwf
  rw [sumShapes_eq_body]
  have hdata : (String.mk (renderText lns)).data = renderText lns := rfl
  rw [hdata]
  cases lns with
  | nil => decide
  | cons line lns2 =>
    unfold renderText
    have hnomem : ∀ l ∈ (line :: lns2).map renderLine, ('\n' : Char) ∉ l := by
      intro l hl hmem
      rcases List.mem_map.mp hl with ⟨ln, hln, rfl⟩
      have hf := renderLine_chars ln (fun g hg => (hwf ln hln g hg).2) _ hmem
      exact absurd hf (by decide)
    unfold splitLines
    rw [split_joinSep '\n' _ (by simp) hnomem]
    have hnocr : ∀ l ∈ (line :: lns2).map renderLine, dropOneCR l = l := by
      intro l hl
      rcases List.mem_map.mp hl with ⟨ln, hln, rfl⟩
      refine dropOneCR_eq_self (fun hmem => ?_)
      have hf := renderLine_chars ln (fun g hg => (hwf ln hln g hg).2) _ hmem
      exact absurd hf (by decide)
    rw [mapExceptLast_eq_self _ _ hnocr]
    rw [List.map_map]
    have hmapped : List.map (lineValue ∘ renderLine) (line :: lns2)
        = List.map (fun ln => ((lineNatVal ln : Int))) (line :: lns2) :=
      List.map_congr_left (fun ln hln => lineValue_renderLine ln (hwf ln hln))
    rw [hmapped, foldl_add_int, zero_add]
    unfold textNatVal
    rw [Nat.cast_list_sum, List.map_map]
    rfl

/-- C2 (witness): the general sum-of-products law applied to the rendered
two-line example, whose value is 2*3 + 4 = 10. -/
theorem sumShapes_sum_of_products_witness :
    sumShapes (String.mk (renderText exampleLines)) = (textNatVal exampleLines : Int) :=
  sumShapes_sum_of_products.1 exampleLines (by decide)

/-- C9: a line holding no bracket (and no newline, so that it is one line)
is parsed as if it were a single bracketed group: for every such non-empty
string s, sumShapes s = sumShapes ("[" ++ s ++ "]"); for example
sumShapes "2,3" = 6. -/
theorem sumShapes_bracketfree_line :
    (∀ s : String, s ≠ "" →
        (∀ c ∈ s.data, ¬(c = '[') ∧ ¬(c = ']') ∧ ¬(c = '\n')) →
        sumShapes s = sumShapes ("[" ++ s ++ "]"))
      ∧ sumShapes ("2,3") = 6 := by
  refine ⟨?_, by decide⟩
  intro s hne hchars
  have hbr : ('[' : Char) ∉ s.data := fun hm => (hchars _ hm).1 rfl
  have hcl : (']' : Char) ∉ s.data := fun hm => (hchars _ hm).2.1 rfl
  have hnl : ('\n' : Char) ∉ s.data := fun hm => (hchars _ hm).2.2 rfl
  rw [sumShapes_eq_body, sumShapes_eq_body]
  have hdata : ("[" ++ s ++ "]").data = '[' :: s.data ++ [']'] := by
    rw [String.data_append, String.data_append]
    rfl
  rw [hdata]
  have hnl2 : ('\n' : Char) ∉ '[' :: s.data ++ [']'] := by
    intro hm
    rcases List.mem_append.mp hm with hm | hm
    · rcases List.mem_cons.mp hm with h1 | h1
      · exact absurd h1 (by decide)
      · exact hnl h1
    · rw [List.mem_singleton] at hm
      exact absurd hm (by decide)
  rw [splitLines_no_newline s.data hnl, splitLines_no_newline _ hnl2]
  simp only [List.map_cons, List.map_nil, List.foldl_cons, List.foldl_nil, zero_add]
  rw [lineValue_no_bracket s.data hbr hcl]
  have htrim : jsTrim ('[' :: s.data ++ [']']) = '[' :: s.data ++ [']'] := by
    unfold jsTrim
    rw [List.cons_append, List.dropWhile_cons, if_neg (by decide), ← List.cons_append]
    exact dropEndWhile_append_of_neg isJsWs ('[' :: s.data) ']' (by decide)
  unfold lineValue
  rw [htrim, if_neg (by simp), scanGroups_wrap s.data hcl]
  rw [if_neg (by simp)]
  simp only [List.map_cons, List.map_nil, List.foldl_cons, List.foldl_nil, zero_add]
  rw [parseShapeGroup_wrap s.data hcl]
  exact contentValue_jsTrim s.data

/-- C9 (witness): the general bracket-wrapping law at the line "2,3". -/
theorem sumShapes_bracketfree_line_witness :
    sumShapes ("2,3") = sumShapes ("[" ++ "2,3" ++ "]") :=
  sumShapes_bracketfree_line.1 ("2,3") (by decide) (by decide)

end MoESpeed
